import Mathlib

/-!
Verification of the configuration-argument module of the `scrolls` repository
(`src/crosscut/args.rs`): chain-point parsing and formatting (`PointArg`),
conversion to/from the protocol-level `Point`, network-magic parsing
(`MagicArg`), and the well-known chain-info registry (`ChainWellKnownInfo`).

Rust strings are modelled as `List Char`; `u64` values as `Nat` with the
`< 2^64` bound made explicit where the code checks it (integer parsing);
`Vec<u8>` as `List Nat` whose elements are below 256 where that matters.
-/

/-- `2^64`, the number of values of a Rust `u64`. -/
def U64_BOUND : Nat := 18446744073709551616

/-- Is `c` an ASCII decimal digit? (What Rust's `u64::from_str` accepts
after the optional sign.) -/
def isAsciiDigit (c : Char) : Bool :=
  decide (48 ≤ c.toNat ∧ c.toNat ≤ 57)

/-- The numeric value of a list of ASCII digit characters, most significant
first (the accumulator loop inside Rust's integer `from_str`). -/
def digitsToNat (l : List Char) : Nat :=
  l.foldl (fun a c => 10 * a + (c.toNat - 48)) 0

/-- Drop one leading `+` sign if present (Rust's integer `from_str` skips
it before reading digits). -/
def stripLeadingPlus (s : List Char) : List Char :=
  match s with
  | c :: rest => if c = '+' then rest else c :: rest
  | [] => []

/-- Model of Rust's `str::parse::<u64>`: an optional leading `+` sign, then
one or more ASCII digits; the value must fit in a `u64`. -/
def parseU64 (s : List Char) : Option Nat :=
  if stripLeadingPlus s = [] then none
  else if (stripLeadingPlus s).all isAsciiDigit then
    if digitsToNat (stripLeadingPlus s) < U64_BOUND then
      some (digitsToNat (stripLeadingPlus s))
    else none
  else none

/-- The ASCII character for decimal digit `d` (callers pass `d < 10`). -/
def digitChar (d : Nat) : Char :=
  if d = 0 then '0' else if d = 1 then '1' else if d = 2 then '2'
  else if d = 3 then '3' else if d = 4 then '4' else if d = 5 then '5'
  else if d = 6 then '6' else if d = 7 then '7' else if d = 8 then '8'
  else '9'

/-- Decimal rendering of a natural number, as Rust's `Display` for `u64`
produces it: no sign, no leading zeros (except for `"0"` itself). -/
def natToDecimal (n : Nat) : List Char :=
  if _h : n < 10 then [digitChar n]
  else natToDecimal (n / 10) ++ [digitChar (n % 10)]
decreasing_by
  exact Nat.div_lt_self (by omega) (by omega)

/-- Model of Rust's `str::split(',')` collected into a vector: the maximal
comma-free segments of `l`, in order; always non-empty, and empty segments
appear for adjacent, leading, or trailing commas. -/
def splitOnComma : List Char → List (List Char)
  | [] => [[]]
  | c :: rest =>
    if c = ',' then [] :: splitOnComma rest
    else
      match splitOnComma rest with
      | h :: t => (c :: h) :: t
      | [] => [[c]]

/-- The value of an ASCII hexadecimal digit (either case), `none` for any
other character — the per-character check of the `hex` crate's decoder. -/
def hexVal (c : Char) : Option Nat :=
  if 48 ≤ c.toNat ∧ c.toNat ≤ 57 then some (c.toNat - 48)
  else if 97 ≤ c.toNat ∧ c.toNat ≤ 102 then some (c.toNat - 87)
  else if 65 ≤ c.toNat ∧ c.toNat ≤ 70 then some (c.toNat - 55)
  else none

/-- Is `c` a hexadecimal digit (either case)? -/
def isHexDigitChar (c : Char) : Bool :=
  (hexVal c).isSome

/-- Model of `hex::decode`: pairs of hexadecimal digits to bytes; fails on
odd length or any non-hex character. -/
def hexDecode : List Char → Option (List Nat)
  | [] => some []
  | [_] => none
  | c1 :: c2 :: rest =>
    match hexVal c1, hexVal c2, hexDecode rest with
    | some h, some l, some bs => some ((16 * h + l) :: bs)
    | _, _, _ => none

/-- The lowercase hexadecimal digit for `d` (callers pass `d < 16`) — the
`hex` crate's lowercase output table. -/
def hexDigitLower (d : Nat) : Char :=
  if d = 0 then '0' else if d = 1 then '1' else if d = 2 then '2'
  else if d = 3 then '3' else if d = 4 then '4' else if d = 5 then '5'
  else if d = 6 then '6' else if d = 7 then '7' else if d = 8 then '8'
  else if d = 9 then '9' else if d = 10 then 'a' else if d = 11 then 'b'
  else if d = 12 then 'c' else if d = 13 then 'd' else if d = 14 then 'e'
  else 'f'

/-- Model of `hex::encode`: each byte becomes two lowercase hex digits,
high nibble first. -/
def hexEncode : List Nat → List Char
  | [] => []
  | b :: rest => hexDigitLower (b / 16) :: hexDigitLower (b % 16) :: hexEncode rest

/-- Is `c` a lowercase hexadecimal digit (`0`-`9` or `a`-`f`)? -/
def isLowerHexDigit (c : Char) : Bool :=
  decide ((48 ≤ c.toNat ∧ c.toNat ≤ 57) ∨ (97 ≤ c.toNat ∧ c.toNat ≤ 102))

-- Decidable equality for `Except` results, used to evaluate the model at
-- concrete inputs.
deriving instance DecidableEq for Except

/-- Modelled from the spec: the repository's shared `crate::Error` type is
defined outside the sources provided here. The spec names the failure
variants `ParseError` (malformed point or magic text), `DecodeError`
(invalid hex at protocol conversion) and `ConfigError` (unknown magic),
each carrying a message; `ConfigError` also appears by name in
`args.rs`. `Panic` is an embedding artifact modelling the out-of-bounds
`Vec::remove` panic, which no reachable branch of `from_str` hits. -/
inductive Error where
  | ParseError (msg : String)
  | DecodeError (msg : String)
  | ConfigError (msg : String)
  | Panic
deriving DecidableEq, Repr

/-- `pallas::network::miniprotocols::Point`: the protocol-level chain
point, with the hash as raw bytes. -/
inductive Point where
  | Origin : Point
  | Specific (slot : Nat) (hash : List Nat) : Point
deriving DecidableEq, Repr

/-- `PointArg`: the serialization-friendly chain point, with the hash kept
as a (hex-encoded) string. -/
inductive PointArg where
  | Origin : PointArg
  | Specific (slot : Nat) (hash : List Char) : PointArg
deriving DecidableEq, Repr

/-- `impl FromStr for PointArg`: if the text contains a comma, split on
commas, parse the first segment as a `u64` slot and take the second
segment as the hash; otherwise the literal `"origin"` is the origin and
anything else is a format error. -/
def PointArg.from_str (s : List Char) : Except Error PointArg :=
  if ',' ∈ s then
    match splitOnComma s with
    | p0 :: rest =>
      match parseU64 p0 with
      | none => Except.error (Error.ParseError "can't parse slot number")
      | some slot =>
        match rest with
        | p1 :: _ => Except.ok (PointArg.Specific slot p1)
        | [] => Except.error Error.Panic
    | [] => Except.error Error.Panic
  else if s = "origin".data then Except.ok PointArg.Origin
  else
    Except.error
      (Error.ParseError "Can't parse chain point value, expecting `slot,hex-hash` format")

/-- `impl ToString for PointArg`: `origin`, or `{slot},{hash}`. -/
def PointArg.to_string : PointArg → List Char
  | PointArg.Origin => "origin".data
  | PointArg.Specific slot hash => natToDecimal slot ++ ',' :: hash

/-- `impl TryInto<Point> for PointArg`: decode the hex hash into bytes;
a failed decode is reported as a decode error. -/
def PointArg.try_into_point : PointArg → Except Error Point
  | PointArg.Origin => Except.ok Point.Origin
  | PointArg.Specific slot hash_hex =>
    match hexDecode hash_hex with
    | some hash => Except.ok (Point.Specific slot hash)
    | none => Except.error (Error.DecodeError "can't decode point hash hex value")

/-- `impl From<Point> for PointArg`: hex-encode the byte hash. -/
def PointArg.from_point : Point → PointArg
  | Point.Origin => PointArg.Origin
  | Point.Specific slot hash => PointArg.Specific slot (hexEncode hash)

/-- Do all hash bytes of `p` fit in a `u8`? (Automatic for every value of
the Rust `Point`, whose hash is a `Vec<u8>`.) -/
def Point.validBytes : Point → Bool
  | Point.Origin => true
  | Point.Specific _ hash => hash.all (fun b => decide (b < 256))

/-- `pallas::network::miniprotocols::MAINNET_MAGIC`. -/
def MAINNET_MAGIC : Nat := 764824073

/-- `pallas::network::miniprotocols::TESTNET_MAGIC`. -/
def TESTNET_MAGIC : Nat := 1097911063

/-- `pub struct MagicArg(pub u64)`. -/
structure MagicArg where
  val : Nat
deriving DecidableEq, Repr

/-- `impl FromStr for MagicArg`: the literals `testnet` and `mainnet`, or a
`u64` in decimal; its error type is a plain static string. -/
def MagicArg.from_str (s : List Char) : Except String MagicArg :=
  if s = "testnet".data then Except.ok ⟨TESTNET_MAGIC⟩
  else if s = "mainnet".data then Except.ok ⟨MAINNET_MAGIC⟩
  else
    match parseU64 s with
    | some v => Except.ok ⟨v⟩
    | none => Except.error "can't parse magic value"

/-- `impl Default for MagicArg`. -/
def MagicArg.default : MagicArg := ⟨MAINNET_MAGIC⟩

/-- `ChainWellKnownInfo`: the hardcoded per-network constants. -/
structure ChainWellKnownInfo where
  magic : Nat
  byron_epoch_length : Nat
  byron_slot_length : Nat
  byron_known_slot : Nat
  byron_known_hash : String
  byron_known_time : Nat
  shelley_epoch_length : Nat
  shelley_slot_length : Nat
  shelley_known_slot : Nat
  shelley_known_hash : String
  shelley_known_time : Nat
  address_hrp : String
  adahandle_policy : String
deriving DecidableEq, Repr

/-- `ChainWellKnownInfo::mainnet()`: the hardcoded mainnet values. -/
def ChainWellKnownInfo.mainnet : ChainWellKnownInfo where
  magic := MAINNET_MAGIC
  byron_epoch_length := 432000
  byron_slot_length := 20
  byron_known_slot := 0
  byron_known_time := 1506203091
  byron_known_hash := "f0f7892b5c333cffc4b3c4344de48af4cc63f55e44936196f365a9ef2244134f"
  shelley_epoch_length := 432000
  shelley_slot_length := 1
  shelley_known_slot := 4492800
  shelley_known_hash := "aa83acbf5904c0edfe4d79b3689d3d00fcfc553cf360fd2229b98d464c28e9de"
  shelley_known_time := 1596059091
  address_hrp := "addr"
  adahandle_policy := "f0ff48bbb7bbe9d59a40f1ce90e9e9d0ff5002ec48f232b49ca0fb9a"

/-- `ChainWellKnownInfo::testnet()`: the hardcoded testnet values. -/
def ChainWellKnownInfo.testnet : ChainWellKnownInfo where
  magic := TESTNET_MAGIC
  byron_epoch_length := 432000
  byron_slot_length := 20
  byron_known_slot := 0
  byron_known_time := 1564010416
  byron_known_hash := "8f8602837f7c6f8b8867dd1cbc1842cf51a27eaed2c70ef48325d00f8efb320f"
  shelley_epoch_length := 432000
  shelley_slot_length := 1
  shelley_known_slot := 1598400
  shelley_known_hash := "02b1c561715da9e540411123a6135ee319b02f60b9a11a603d3305556c04329f"
  shelley_known_time := 1595967616
  address_hrp := "addr_test"
  adahandle_policy := "8d18d786e92776c824607fd8e193ec535c79dc61ea2405ddf3b09fe3"

/-- `ChainWellKnownInfo::try_from_magic`: exact match against the two
well-known magics; note the `infro` typo in the source's error message. -/
def ChainWellKnownInfo.try_from_magic (magic : Nat) : Except Error ChainWellKnownInfo :=
  if magic = MAINNET_MAGIC then Except.ok ChainWellKnownInfo.mainnet
  else if magic = TESTNET_MAGIC then Except.ok ChainWellKnownInfo.testnet
  else
    Except.error
      (Error.ConfigError "can't infer well-known chain infro from specified magic")

/-- `impl Default for ChainWellKnownInfo`. -/
def ChainWellKnownInfo.default : ChainWellKnownInfo := ChainWellKnownInfo.mainnet

/-! ## Helper lemmas -/

theorem digitChar_toNat : ∀ d : Nat, d < 10 → (digitChar d).toNat = 48 + d := by
  decide

theorem isAsciiDigit_digitChar : ∀ d : Nat, d < 10 → isAsciiDigit (digitChar d) = true := by
  decide

theorem hexVal_hexDigitLower : ∀ d : Nat, d < 16 → hexVal (hexDigitLower d) = some d := by
  decide

theorem natToDecimal_eq (n : Nat) :
    natToDecimal n =
      if n < 10 then [digitChar n] else natToDecimal (n / 10) ++ [digitChar (n % 10)] := by
  conv_lhs => unfold natToDecimal
  rw [dite_eq_ite]

theorem natToDecimal_ne_nil (n : Nat) : natToDecimal n ≠ [] := by
  rw [natToDecimal_eq]
  split <;> simp

theorem natToDecimal_all_digits (n : Nat) :
    ∀ c ∈ natToDecimal n, isAsciiDigit c = true := by
  induction n using Nat.strong_induction_on with
  | _ n ih =>
    rw [natToDecimal_eq]
    split
    · next h =>
      intro c hc
      simp only [List.mem_singleton] at hc
      subst hc
      exact isAsciiDigit_digitChar n h
    · next h =>
      intro c hc
      rcases List.mem_append.mp hc with h1 | h2
      · exact ih (n / 10) (Nat.div_lt_self (by omega) (by omega)) c h1
      · simp only [List.mem_singleton] at h2
        subst h2
        exact isAsciiDigit_digitChar _ (Nat.mod_lt _ (by omega))

theorem digitsToNat_append_digit (l : List Char) (c : Char) :
    digitsToNat (l ++ [c]) = 10 * digitsToNat l + (c.toNat - 48) := by
  unfold digitsToNat
  rw [List.foldl_append]
  rfl

theorem digitsToNat_natToDecimal (n : Nat) : digitsToNat (natToDecimal n) = n := by
  induction n using Nat.strong_induction_on with
  | _ n ih =>
    rw [natToDecimal_eq]
    split
    · next h =>
      show digitsToNat [digitChar n] = n
      unfold digitsToNat
      simp only [List.foldl_cons, List.foldl_nil]
      rw [digitChar_toNat n h]
      omega
    · next h =>
      rw [digitsToNat_append_digit,
        ih (n / 10) (Nat.div_lt_self (by omega) (by omega)),
        digitChar_toNat _ (Nat.mod_lt _ (by omega))]
      omega

theorem stripLeadingPlus_all_digits (l : List Char) (h : ∀ c ∈ l, isAsciiDigit c = true) :
    stripLeadingPlus l = l := by
  cases l with
  | nil => rfl
  | cons c rest =>
    have hc := h c (List.mem_cons_self c rest)
    have hne : ¬ c = '+' := by
      intro he
      subst he
      exact absurd hc (by decide)
    simp [stripLeadingPlus, hne]

theorem parseU64_natToDecimal {n : Nat} (hn : n < U64_BOUND) :
    parseU64 (natToDecimal n) = some n := by
  have hdig := natToDecimal_all_digits n
  unfold parseU64
  rw [stripLeadingPlus_all_digits _ hdig, if_neg (natToDecimal_ne_nil n),
    if_pos (List.all_eq_true.mpr hdig), digitsToNat_natToDecimal, if_pos hn]

theorem comma_not_mem {l : List Char} {p : Char → Bool} (hp : p ',' = false)
    (h : ∀ c ∈ l, p c = true) : ',' ∉ l := by
  intro hm
  have ht := h ',' hm
  rw [hp] at ht
  exact Bool.false_ne_true ht

theorem splitOnComma_append (pre post : List Char) (h : ',' ∉ pre) :
    splitOnComma (pre ++ ',' :: post) = pre :: splitOnComma post := by
  induction pre with
  | nil => simp [splitOnComma]
  | cons c pre ih =>
    have hc : ¬ c = ',' := fun he => h (he ▸ List.mem_cons_self c pre)
    have h2 : ',' ∉ pre := fun hm => h (List.mem_cons_of_mem c hm)
    simp only [List.cons_append, splitOnComma, if_neg hc]
    rw [show pre.append (',' :: post) = pre ++ ',' :: post from rfl, ih h2]

theorem splitOnComma_no_comma (l : List Char) (h : ',' ∉ l) : splitOnComma l = [l] := by
  induction l with
  | nil => rfl
  | cons c rest ih =>
    have hc : ¬ c = ',' := fun he => h (he ▸ List.mem_cons_self c rest)
    have h2 : ',' ∉ rest := fun hm => h (List.mem_cons_of_mem c hm)
    simp only [splitOnComma, if_neg hc, ih h2]

theorem takeWhile_no_comma (l : List Char) (h : ',' ∉ l) :
    l.takeWhile (fun c => c != ',') = l := by
  induction l with
  | nil => rfl
  | cons c rest ih =>
    have hc : (c != ',') = true := by
      simp only [bne_iff_ne, ne_eq]
      exact fun he => h (he ▸ List.mem_cons_self c rest)
    have h2 : ',' ∉ rest := fun hm => h (List.mem_cons_of_mem c hm)
    simp [List.takeWhile_cons, hc, ih h2]

theorem takeWhile_append_comma (mid rest : List Char) (h : ',' ∉ mid) :
    (mid ++ ',' :: rest).takeWhile (fun c => c != ',') = mid := by
  induction mid with
  | nil => simp [List.takeWhile_cons]
  | cons c mid ih =>
    have hc : (c != ',') = true := by
      simp only [bne_iff_ne, ne_eq]
      exact fun he => h (he ▸ List.mem_cons_self c mid)
    have h2 : ',' ∉ mid := fun hm => h (List.mem_cons_of_mem c hm)
    simp [List.takeWhile_cons, hc, ih h2]

theorem splitOnComma_head (l : List Char) :
    ∃ t, splitOnComma l = l.takeWhile (fun c => c != ',') :: t := by
  induction l with
  | nil => exact ⟨[], rfl⟩
  | cons c rest ih =>
    by_cases hc : c = ','
    · subst hc
      exact ⟨splitOnComma rest, by simp [splitOnComma, List.takeWhile_cons]⟩
    · obtain ⟨t, ht⟩ := ih
      refine ⟨t, ?_⟩
      have hb : (c != ',') = true := by
        simp only [bne_iff_ne, ne_eq]
        exact hc
      simp only [splitOnComma, if_neg hc, ht, List.takeWhile_cons, hb]
      simp

theorem from_str_split (pre post : List Char) (h : ',' ∉ pre) :
    PointArg.from_str (pre ++ ',' :: post) =
      match parseU64 pre with
      | some slot =>
        Except.ok (PointArg.Specific slot (post.takeWhile (fun c => c != ',')))
      | none => Except.error (Error.ParseError "can't parse slot number") := by
  have hmem : ',' ∈ pre ++ ',' :: post :=
    List.mem_append_right _ (List.mem_cons_self _ _)
  obtain ⟨t, ht⟩ := splitOnComma_head post
  unfold PointArg.from_str
  rw [if_pos hmem, splitOnComma_append pre post h, ht]
  cases hp : parseU64 pre <;> simp [hp]

theorem hexDecode_hexEncode (bs : List Nat) (h : ∀ b ∈ bs, b < 256) :
    hexDecode (hexEncode bs) = some bs := by
  induction bs with
  | nil => rfl
  | cons b rest ih =>
    have hb : b < 256 := h b (List.mem_cons_self b rest)
    have h1 : b / 16 < 16 := by omega
    have h2 : b % 16 < 16 := by omega
    have hrest : ∀ x ∈ rest, x < 256 := fun x hx => h x (List.mem_cons_of_mem _ hx)
    show hexDecode (hexDigitLower (b / 16) :: hexDigitLower (b % 16) :: hexEncode rest) = _
    unfold hexDecode
    rw [hexVal_hexDigitLower _ h1, hexVal_hexDigitLower _ h2, ih hrest]
    show some ((16 * (b / 16) + b % 16) :: rest) = some (b :: rest)
    have hrec : 16 * (b / 16) + b % 16 = b := by omega
    rw [hrec]

theorem list_pair_induction {P : List Char → Prop} (h0 : P []) (h1 : ∀ c, P [c])
    (h2 : ∀ c1 c2 rest, P rest → P (c1 :: c2 :: rest)) : ∀ l, P l := by
  have key : ∀ l, P l ∧ ∀ c, P (c :: l) := by
    intro l
    induction l with
    | nil => exact ⟨h0, h1⟩
    | cons d t ih => exact ⟨ih.2 d, fun c => h2 c d t ih.1⟩
  exact fun l => (key l).1

theorem hexDecode_isSome_iff :
    ∀ l : List Char,
      (hexDecode l).isSome = true ↔ l.length % 2 = 0 ∧ ∀ c ∈ l, isHexDigitChar c = true := by
  refine list_pair_induction ?_ ?_ ?_
  · simp [hexDecode]
  · intro c
    simp [hexDecode]
  · intro c1 c2 rest ih
    have hstep : hexDecode (c1 :: c2 :: rest) =
        match hexVal c1, hexVal c2, hexDecode rest with
        | some h, some l, some bs => some ((16 * h + l) :: bs)
        | _, _, _ => none := rfl
    constructor
    · intro h
      rw [hstep] at h
      rcases hv1 : hexVal c1 with _ | v1 <;> rw [hv1] at h
      · simp at h
      rcases hv2 : hexVal c2 with _ | v2 <;> rw [hv2] at h
      · simp at h
      rcases hd : hexDecode rest with _ | bs <;> rw [hd] at h
      · simp at h
      have hrest := ih.mp (by rw [hd]; rfl)
      refine ⟨?_, ?_⟩
      · have := hrest.1
        simp only [List.length_cons]
        omega
      · intro c hc
        rcases List.mem_cons.mp hc with rfl | hc2
        · show (hexVal c).isSome = true
          rw [hv1]
          rfl
        rcases List.mem_cons.mp hc2 with rfl | hc3
        · show (hexVal c).isSome = true
          rw [hv2]
          rfl
        exact hrest.2 c hc3
    · rintro ⟨hlen, hmem⟩
      have hhex1 : (hexVal c1).isSome = true := hmem c1 (List.mem_cons_self _ _)
      have hhex2 : (hexVal c2).isSome = true :=
        hmem c2 (List.mem_cons_of_mem _ (List.mem_cons_self _ _))
      have hrest : (hexDecode rest).isSome = true := by
        refine ih.mpr ⟨?_, ?_⟩
        · simp only [List.length_cons] at hlen
          omega
        · exact fun c hc => hmem c (List.mem_cons_of_mem _ (List.mem_cons_of_mem _ hc))
      obtain ⟨v1, hv1⟩ := Option.isSome_iff_exists.mp hhex1
      obtain ⟨v2, hv2⟩ := Option.isSome_iff_exists.mp hhex2
      obtain ⟨bs, hd⟩ := Option.isSome_iff_exists.mp hrest
      rw [hstep, hv1, hv2, hd]
      rfl

/-! ## Claims -/

/-- Claim C1, counterexample: on `"1,ab,cd"` the parser returns
`Specific 1 "ab"`, not `Specific 1 "ab,cd"` — the hash is NOT the entire
remainder after the first comma. -/
theorem C1_counterexample :
    PointArg.from_str "1,ab,cd".data = Except.ok (PointArg.Specific 1 "ab".data) ∧
    PointArg.from_str "1,ab,cd".data ≠ Except.ok (PointArg.Specific 1 "ab,cd".data) :=
  ⟨by decide, by decide⟩

/-- Claim C1 (amended): for every text containing a comma — written as
`pre ++ ',' :: post` with `pre` comma-free — the parser parses `pre` as an
unsigned 64-bit decimal slot, failing with
`ParseError "can't parse slot number"` otherwise, and on success the hash
is the portion of `post` strictly before the next comma (all of `post`
when it has no further comma). -/
theorem C1_first_segments (pre post : List Char) (hpre : ',' ∉ pre) :
    PointArg.from_str (pre ++ ',' :: post) =
      match parseU64 pre with
      | some slot =>
        Except.ok (PointArg.Specific slot (post.takeWhile (fun c => c != ',')))
      | none => Except.error (Error.ParseError "can't parse slot number") :=
  from_str_split pre post hpre

/-- Claim C1, witness: the amended statement evaluated at `"1,ab,cd"`. -/
theorem C1_first_segments_witness :
    PointArg.from_str "1,ab,cd".data = Except.ok (PointArg.Specific 1 "ab".data) := by
  have h := C1_first_segments "1".data "ab,cd".data (by decide)
  have e : "1".data ++ ',' :: "ab,cd".data = "1,ab,cd".data := by decide
  rw [e] at h
  exact h.trans (by decide)

/-- Claim C2, counterexample: the error message of `try_from_magic` spells
`infro`, not `info` as the claim states. -/
theorem C2_counterexample :
    ChainWellKnownInfo.try_from_magic 99999 =
      Except.error
        (Error.ConfigError "can't infer well-known chain infro from specified magic") ∧
    Error.ConfigError "can't infer well-known chain infro from specified magic" ≠
      Error.ConfigError "can't infer well-known chain info from specified magic" :=
  ⟨by rfl, by decide⟩

/-- Claim C2 (amended): `try_from_magic` returns the mainnet record for the
mainnet magic, the testnet record for the testnet magic, fails with
`ConfigError "can't infer well-known chain infro from specified magic"`
(sic) for every other value, and never produces any record other than the
two hardcoded ones. -/
theorem C2_try_from_magic (m : Nat) :
    (m = MAINNET_MAGIC →
      ChainWellKnownInfo.try_from_magic m = Except.ok ChainWellKnownInfo.mainnet) ∧
    (m = TESTNET_MAGIC →
      ChainWellKnownInfo.try_from_magic m = Except.ok ChainWellKnownInfo.testnet) ∧
    (m ≠ MAINNET_MAGIC → m ≠ TESTNET_MAGIC →
      ChainWellKnownInfo.try_from_magic m =
        Except.error
          (Error.ConfigError "can't infer well-known chain infro from specified magic")) ∧
    (∀ info, ChainWellKnownInfo.try_from_magic m = Except.ok info →
      info = ChainWellKnownInfo.mainnet ∨ info = ChainWellKnownInfo.testnet) := by
  refine ⟨fun h => ?_, fun h => ?_, fun h1 h2 => ?_, fun info h => ?_⟩
  · unfold ChainWellKnownInfo.try_from_magic
    rw [if_pos h]
  · subst h
    unfold ChainWellKnownInfo.try_from_magic
    rw [if_neg (by decide), if_pos rfl]
  · unfold ChainWellKnownInfo.try_from_magic
    rw [if_neg h1, if_neg h2]
  · unfold ChainWellKnownInfo.try_from_magic at h
    split_ifs at h
    · exact Or.inl (Except.ok.inj h).symm
    · exact Or.inr (Except.ok.inj h).symm

/-- Claim C2, witness: the amended statement evaluated at magic `99999`. -/
theorem C2_try_from_magic_witness :
    ChainWellKnownInfo.try_from_magic 99999 =
      Except.error
        (Error.ConfigError "can't infer well-known chain infro from specified magic") :=
  (C2_try_from_magic 99999).2.2.1 (by decide) (by decide)

/-- Claim C3: for every `u64` slot `S` and every string `H` of lowercase
hex digits (valid hex or not — any comma-free digit string), parsing the
formatted text of `Specific S H` yields `Specific S H` back. -/
theorem C3_parse_format_roundtrip (S : Nat) (H : List Char) (hS : S < U64_BOUND)
    (hH : ∀ c ∈ H, isLowerHexDigit c = true) :
    PointArg.from_str (PointArg.to_string (PointArg.Specific S H)) =
      Except.ok (PointArg.Specific S H) := by
  have hpre : ',' ∉ natToDecimal S := comma_not_mem (by decide) (natToDecimal_all_digits S)
  have hH2 : ',' ∉ H := comma_not_mem (by decide) hH
  show PointArg.from_str (natToDecimal S ++ ',' :: H) = _
  rw [from_str_split _ _ hpre, parseU64_natToDecimal hS, takeWhile_no_comma H hH2]

/-- Claim C3, witness: the round trip evaluated at `Specific 1 "ab"`. -/
theorem C3_parse_format_roundtrip_witness :
    PointArg.from_str (PointArg.to_string (PointArg.Specific 1 "ab".data)) =
      Except.ok (PointArg.Specific 1 "ab".data) :=
  C3_parse_format_roundtrip 1 "ab".data (by decide) (by decide)

/-- Claim C4: converting any protocol point (its hash being bytes, i.e.
values below 256) to a `PointArg` and back succeeds and is the identity. -/
theorem C4_protocol_roundtrip (p : Point) (h : p.validBytes = true) :
    PointArg.try_into_point (PointArg.from_point p) = Except.ok p := by
  cases p with
  | Origin => rfl
  | Specific slot hash =>
    have hb : ∀ b ∈ hash, b < 256 := by
      intro b hbm
      exact of_decide_eq_true (List.all_eq_true.mp h b hbm)
    show PointArg.try_into_point (PointArg.Specific slot (hexEncode hash)) = _
    simp only [PointArg.try_into_point]
    rw [hexDecode_hexEncode hash hb]

/-- Claim C4, witness: the round trip evaluated at
`Specific 5 [0, 171, 255]`. -/
theorem C4_protocol_roundtrip_witness :
    PointArg.try_into_point (PointArg.from_point (Point.Specific 5 [0, 171, 255])) =
      Except.ok (Point.Specific 5 [0, 171, 255]) :=
  C4_protocol_roundtrip (Point.Specific 5 [0, 171, 255]) (by decide)

/-- Claim C5: `try_into_point` maps `Origin` to `Origin`; for
`Specific slot hash` it decodes the hash as hexadecimal (succeeding
exactly when the hash has even length and only hex digits) into bytes,
and on decode failure reports
`DecodeError "can't decode point hash hex value"`. -/
theorem C5_to_protocol (slot : Nat) (hash : List Char) :
    PointArg.try_into_point PointArg.Origin = Except.ok Point.Origin ∧
    ((hash.length % 2 = 0 ∧ ∀ c ∈ hash, isHexDigitChar c = true) →
      ∃ bytes, hexDecode hash = some bytes ∧
        PointArg.try_into_point (PointArg.Specific slot hash) =
          Except.ok (Point.Specific slot bytes)) ∧
    (¬ (hash.length % 2 = 0 ∧ ∀ c ∈ hash, isHexDigitChar c = true) →
      PointArg.try_into_point (PointArg.Specific slot hash) =
        Except.error (Error.DecodeError "can't decode point hash hex value")) := by
  refine ⟨rfl, fun hv => ?_, fun hv => ?_⟩
  · have hs : (hexDecode hash).isSome = true := (hexDecode_isSome_iff hash).mpr hv
    obtain ⟨bytes, hb⟩ := Option.isSome_iff_exists.mp hs
    refine ⟨bytes, hb, ?_⟩
    simp only [PointArg.try_into_point]
    rw [hb]
  · have hn : hexDecode hash = none := by
      rcases hx : hexDecode hash with _ | bs
      · rfl
      · exact absurd ((hexDecode_isSome_iff hash).mp (by rw [hx]; rfl)) hv
    simp only [PointArg.try_into_point]
    rw [hn]

/-- Claim C5, witness: the decode-failure branch evaluated at
`Specific 9 "zz"`. -/
theorem C5_to_protocol_witness :
    PointArg.try_into_point (PointArg.Specific 9 "zz".data) =
      Except.error (Error.DecodeError "can't decode point hash hex value") :=
  (C5_to_protocol 9 "zz".data).2.2 (by decide)

/-- Claim C6: `MagicArg.from_str` maps the exact literals `"testnet"` and
`"mainnet"` to their magic constants, and any other text through `u64`
decimal parsing, failing with the message `can't parse magic value`. -/
theorem C6_magic_from_str (s : List Char) :
    MagicArg.from_str "testnet".data = Except.ok ⟨TESTNET_MAGIC⟩ ∧
    MagicArg.from_str "mainnet".data = Except.ok ⟨MAINNET_MAGIC⟩ ∧
    (s ≠ "testnet".data → s ≠ "mainnet".data →
      MagicArg.from_str s =
        match parseU64 s with
        | some v => Except.ok ⟨v⟩
        | none => Except.error "can't parse magic value") := by
  refine ⟨by decide, by decide, fun h1 h2 => ?_⟩
  unfold MagicArg.from_str
  rw [if_neg h1, if_neg h2]

/-- Claim C6, witness: the fallthrough branch evaluated at `"99999"`. -/
theorem C6_magic_from_str_witness :
    MagicArg.from_str "99999".data = Except.ok ⟨99999⟩ := by
  have h := (C6_magic_from_str "99999".data).2.2 (by decide) (by decide)
  exact h.trans (by decide)

/-- Claim C7, counterexample: the actual error message carries backticks
around `slot,hex-hash`, so the message stated by the claim (without
backticks) is not the one produced. -/
theorem C7_counterexample :
    PointArg.from_str "nocommahere".data =
      Except.error
        (Error.ParseError "Can't parse chain point value, expecting `slot,hex-hash` format") ∧
    Error.ParseError "Can't parse chain point value, expecting `slot,hex-hash` format" ≠
      Error.ParseError "Can't parse chain point value, expecting slot,hex-hash format" :=
  ⟨by decide, by decide⟩

/-- Claim C7 (amended): every text with no comma and distinct from
`"origin"` fails with a `ParseError` whose message is
"Can't parse chain point value, expecting \x60slot,hex-hash\x60 format"
(the source message wraps the format hint in backticks). -/
theorem C7_format_error (s : List Char) (h1 : ',' ∉ s) (h2 : s ≠ "origin".data) :
    PointArg.from_str s =
      Except.error
        (Error.ParseError "Can't parse chain point value, expecting `slot,hex-hash` format") := by
  unfold PointArg.from_str
  rw [if_neg h1, if_neg h2]

/-- Claim C7, witness: the amended statement evaluated at
`"nocommahere"`. -/
theorem C7_format_error_witness :
    PointArg.from_str "nocommahere".data =
      Except.error
        (Error.ParseError "Can't parse chain point value, expecting `slot,hex-hash` format") :=
  C7_format_error "nocommahere".data (by decide) (by decide)

/-- Claim C8: parsing the literal `"origin"` yields `Origin`, and
formatting `Origin` yields exactly `"origin"`. -/
theorem C8_origin_literal :
    PointArg.from_str "origin".data = Except.ok PointArg.Origin ∧
    PointArg.to_string PointArg.Origin = "origin".data :=
  ⟨by decide, rfl⟩

/-- Claim C9: an empty hash string — as produced by parsing `"{S},"` with
its trailing comma — converts to the protocol point with zero hash bytes
instead of failing. -/
theorem C9_empty_hash (S : Nat) (hS : S < U64_BOUND) :
    PointArg.from_str (natToDecimal S ++ [',']) = Except.ok (PointArg.Specific S []) ∧
    PointArg.try_into_point (PointArg.Specific S []) = Except.ok (Point.Specific S []) := by
  refine ⟨?_, rfl⟩
  have hpre : ',' ∉ natToDecimal S := comma_not_mem (by decide) (natToDecimal_all_digits S)
  have h := from_str_split (natToDecimal S) [] hpre
  rw [parseU64_natToDecimal hS] at h
  exact h

/-- Claim C9, witness: the statement evaluated at slot `5` (text `"5,"`). -/
theorem C9_empty_hash_witness :
    PointArg.from_str "5,".data = Except.ok (PointArg.Specific 5 []) ∧
    PointArg.try_into_point (PointArg.Specific 5 []) = Except.ok (Point.Specific 5 []) := by
  have h := C9_empty_hash 5 (by decide)
  have e : natToDecimal 5 ++ [','] = "5,".data := by
    rw [natToDecimal_eq]
    decide
  rw [e] at h
  exact h

/-- Claim C10: on text with two or more commas whose first segment parses
as a `u64`, the parser keeps only the segment strictly between the first
and second commas and silently discards everything from the second comma
onward. -/
theorem C10_second_segment (pre mid post : List Char) (slot : Nat)
    (hpre : ',' ∉ pre) (hmid : ',' ∉ mid) (hslot : parseU64 pre = some slot) :
    PointArg.from_str (pre ++ ',' :: (mid ++ ',' :: post)) =
      Except.ok (PointArg.Specific slot mid) := by
  rw [from_str_split pre _ hpre, hslot, takeWhile_append_comma mid post hmid]

/-- Claim C10, witness: the statement evaluated at `"7,de,ff"`. -/
theorem C10_second_segment_witness :
    PointArg.from_str "7,de,ff".data = Except.ok (PointArg.Specific 7 "de".data) := by
  have h := C10_second_segment "7".data "de".data "ff".data 7 (by decide) (by decide) (by decide)
  have e : "7".data ++ ',' :: ("de".data ++ ',' :: "ff".data) = "7,de,ff".data := by decide
  rw [e] at h
  exact h
